import Mathlib

/-!
# Verification of the yield-curve interpolation demo

A shallow embedding of the repository's yield-curve program: market data
setup (`setupMarketData`, tenor dates, rates), curve construction with input
validation, the zero-rate query with linear and natural-cubic-spline
interpolation as specified, and the output / exit-code pipeline of
`runAnalysis` and `main`.  Times and rates are modelled as rationals; dates
as civil (year, month, day) triples with month-based calendar advancement
per the spec (no holiday adjustment).  The interpolation routines themselves
live in the external quantitative library, not in this repository, so they
are modelled from the spec's explicit algorithm descriptions (§4.2, §8).
-/

namespace YieldCurve

/-! ## Errors, methods, curve values (spec §3, §7) -/

/-- Error taxonomy of spec §7. -/
inductive CurveError where
  | InvalidInputError
  | ExtrapolationError
  | UnknownError
deriving DecidableEq

/-- Interpolation method tag. -/
inductive Method where
  | Linear
  | Cubic
deriving DecidableEq

/-- An interpolated curve: the (t, rate) points, the method, and the
extrapolation-enabled flag.  Immutable after construction. -/
structure InterpolatedCurve where
  points : List (ℚ × ℚ)
  method : Method
  extrapolate : Bool
deriving DecidableEq

instance {ε α : Type} [DecidableEq ε] [DecidableEq α] :
    DecidableEq (Except ε α) := fun a b =>
  match a, b with
  | .ok x, .ok y => decidable_of_iff (x = y) (by simp)
  | .error x, .error y => decidable_of_iff (x = y) (by simp)
  | .ok _, .error _ => isFalse (by simp)
  | .error _, .ok _ => isFalse (by simp)

/-- Strict ordering of curve points by time coordinate. -/
def ptLt (p q : ℚ × ℚ) : Prop := p.1 < q.1

instance : DecidableRel ptLt := fun p q => inferInstanceAs (Decidable (p.1 < q.1))

instance : IsTrans (ℚ × ℚ) ptLt := ⟨fun _ _ _ h h2 => lt_trans h h2⟩

/-- The t-values of the point sequence are strictly increasing. -/
def strictlyIncreasing (pts : List (ℚ × ℚ)) : Prop := List.Chain' ptLt pts

instance (pts : List (ℚ × ℚ)) : Decidable (strictlyIncreasing pts) :=
  inferInstanceAs (Decidable (List.Chain' ptLt pts))

/-- Minimum number of points required by each method (spec §4.2). -/
def minPoints : Method → ℕ
  | .Linear => 2
  | .Cubic => 3

/-- `InterpolatedCurve.build` of spec §4.2: rejects too few points or
non-strictly-increasing t-values with `InvalidInputError`. -/
def buildCurve (pts : List (ℚ × ℚ)) (m : Method) (ext : Bool) :
    Except CurveError InterpolatedCurve :=
  if pts.length < minPoints m then .error .InvalidInputError
  else if ¬ strictlyIncreasing pts then .error .InvalidInputError
  else .ok ⟨pts, m, ext⟩

/-- `enableExtrapolation` as called in `runAnalysis` (source lines 81-83). -/
def enableExtrapolation (c : InterpolatedCurve) : InterpolatedCurve :=
  { c with extrapolate := true }

/-! ## Linear interpolation (spec §4.2, Linear) -/

/-- One linear segment: `r1 + (r2 - r1) * (t - t1) / (t2 - t1)`. -/
def segLin (t1 r1 t2 r2 t : ℚ) : ℚ := r1 + (r2 - r1) * (t - t1) / (t2 - t1)

/-- Piecewise linear interpolation over the bracket containing `t`; outside
the knot range the nearest edge segment's slope is extended (spec §4.2
extrapolation rule). -/
def linearInterp : List (ℚ × ℚ) → ℚ → ℚ
  | [], _ => 0
  | [(_, r)], _ => r
  | [(t1, r1), (t2, r2)], t => segLin t1 r1 t2 r2 t
  | (t1, r1) :: (t2, r2) :: p :: ps, t =>
    if t ≤ t2 then segLin t1 r1 t2 r2 t
    else linearInterp ((t2, r2) :: p :: ps) t

/-! ## Natural cubic spline (spec §4.2, Cubic) -/

/-- Interior equations of the natural-spline tridiagonal system, one row
`(a, b, c, d)` per interior knot:
`a*M(i-1) + b*M(i) + c*M(i+1) = d`. -/
def interiorEqs : List (ℚ × ℚ) → List (ℚ × ℚ × ℚ × ℚ)
  | (t0, r0) :: (t1, r1) :: (t2, r2) :: ps =>
    let h0 := t1 - t0
    let h1 := t2 - t1
    (h0, 2 * (h0 + h1), h1, 6 * ((r2 - r1) / h1 - (r1 - r0) / h0)) ::
      interiorEqs ((t1, r1) :: (t2, r2) :: ps)
  | _ => []

/-- Forward sweep of the Thomas tridiagonal algorithm: carries the previous
modified super-diagonal and right-hand side. -/
def thomasFwd (cp dp : ℚ) : List (ℚ × ℚ × ℚ × ℚ) → List (ℚ × ℚ)
  | [] => []
  | (a, b, c, d) :: rest =>
    let den := b - a * cp
    let cp2 := c / den
    let dp2 := (d - a * dp) / den
    (cp2, dp2) :: thomasFwd cp2 dp2 rest

/-- Back substitution of the Thomas algorithm. -/
def thomasBack : List (ℚ × ℚ) → List ℚ
  | [] => []
  | (cp, dp) :: rest =>
    match thomasBack rest with
    | [] => [dp]
    | x :: xs => (dp - cp * x) :: x :: xs

/-- Second derivatives at the knots of the natural cubic spline: zero at both
endpoints, interior values from the tridiagonal solve. -/
def splineM (pts : List (ℚ × ℚ)) : List ℚ :=
  0 :: (thomasBack (thomasFwd 0 0 (interiorEqs pts)) ++ [0])

/-- One cubic segment of the spline in terms of the endpoint second
derivatives `M1`, `M2`. -/
def segCubic (t1 r1 t2 r2 M1 M2 t : ℚ) : ℚ :=
  let h := t2 - t1
  M1 * (t2 - t) ^ 3 / (6 * h) + M2 * (t - t1) ^ 3 / (6 * h)
    + (r1 / h - M1 * h / 6) * (t2 - t) + (r2 / h - M2 * h / 6) * (t - t1)

/-- Evaluate the spline given knot second derivatives, walking to the bracket
containing `t`; outside the range the nearest segment's cubic polynomial is
extended (spec §4.2 extrapolation rule). -/
def cubicEval : List (ℚ × ℚ) → List ℚ → ℚ → ℚ
  | [(_, r)], _, _ => r
  | [(t1, r1), (t2, r2)], M1 :: M2 :: _, t => segCubic t1 r1 t2 r2 M1 M2 t
  | (t1, r1) :: (t2, r2) :: p :: ps, M1 :: M2 :: Ms, t =>
    if t ≤ t2 then segCubic t1 r1 t2 r2 M1 M2 t
    else cubicEval ((t2, r2) :: p :: ps) (M2 :: Ms) t
  | _, _, _ => 0

/-! ## The zero-rate query (spec §4.2) -/

/-- Time of the first knot. -/
def firstT (pts : List (ℚ × ℚ)) : ℚ := (pts.headD (0, 0)).1

/-- Time of the last knot. -/
def lastT (pts : List (ℚ × ℚ)) : ℚ := (pts.getLastD (0, 0)).1

/-- Dispatch on the interpolation method. -/
def interp (m : Method) (pts : List (ℚ × ℚ)) (t : ℚ) : ℚ :=
  match m with
  | .Linear => linearInterp pts t
  | .Cubic => cubicEval pts (splineM pts) t

/-- `zeroRate(t, Continuous)`: interpolate if `t` is in range or
extrapolation is enabled, otherwise fail with `ExtrapolationError`. -/
def zeroRate (c : InterpolatedCurve) (t : ℚ) : Except CurveError ℚ :=
  if c.extrapolate = true ∨ (firstT c.points ≤ t ∧ t ≤ lastT c.points) then
    .ok (interp c.method c.points t)
  else .error .ExtrapolationError

/-! ## Dates, periods and market data (source `YieldCurveBuilder`) -/

/-- A civil calendar date. -/
structure Date where
  y : ℕ
  m : ℕ
  d : ℕ
deriving DecidableEq

/-- Strict calendar order on dates. -/
def dateLt (a b : Date) : Prop :=
  a.y < b.y ∨ (a.y = b.y ∧ (a.m < b.m ∨ (a.m = b.m ∧ a.d < b.d)))

instance : DecidableRel dateLt := fun a b => by unfold dateLt; infer_instance

/-- Leap year rule of the civil calendar. -/
def isLeap (y : ℕ) : Bool := (y % 4 = 0 && y % 100 ≠ 0) || y % 400 = 0

/-- Number of days in a month. -/
def daysInMonth (y m : ℕ) : ℕ :=
  if m = 2 then (if isLeap y then 29 else 28)
  else if m = 4 ∨ m = 6 ∨ m = 9 ∨ m = 11 then 30
  else 31

/-- Months since year zero, for month arithmetic. -/
def totalMonths (dt : Date) : ℕ := 12 * dt.y + (dt.m - 1)

/-- Advance a date by `n` calendar months, clamping the day of month to the
end of the target month (spec §9: no holiday adjustment). -/
def addMonths (dt : Date) (n : ℕ) : Date :=
  let tm := totalMonths dt + n
  let y2 := tm / 12
  let m2 := tm % 12 + 1
  ⟨y2, m2, min dt.d (daysInMonth y2 m2)⟩

/-- Time unit of a QuantLib-style `Period`. -/
inductive TimeUnit where
  | Months
  | Years
deriving DecidableEq

/-- A tenor period such as `Period(6, Months)`. -/
structure Period where
  n : ℕ
  unit : TimeUnit
deriving DecidableEq

/-- A period's length in months. -/
def Period.months : Period → ℕ
  | ⟨n, .Months⟩ => n
  | ⟨n, .Years⟩ => 12 * n

/-- `calendar_.advance(evaluationDate, period)`. -/
def advance (dt : Date) (p : Period) : Date := addMonths dt p.months

/-- The six compiled-in market tenors of `setupMarketData`
(source lines 101-119). -/
def marketTenors : List Period :=
  [⟨6, .Months⟩, ⟨1, .Years⟩, ⟨2, .Years⟩, ⟨5, .Years⟩, ⟨10, .Years⟩, ⟨30, .Years⟩]

/-- The six compiled-in market rates (`rates_`). -/
def marketRates : List ℚ := [3/100, 7/200, 3/80, 1/25, 17/400, 9/200]

/-- The `dates_` vector: each tenor advanced from the evaluation date. -/
def marketDates (evalDate : Date) : List Date :=
  marketTenors.map (fun p => advance evalDate p)

/-- The market quotes as (maturity date, rate) pairs. -/
def setupMarketData (evalDate : Date) : List (Date × ℚ) :=
  (marketDates evalDate).zip marketRates

/-- The three compiled-in test maturities of `performAnalysis`
(source line 133). -/
def testPeriods : List Period := [⟨3, .Months⟩, ⟨7, .Years⟩, ⟨40, .Years⟩]

/-- `CurveStore.build` of spec §4.1: rejects an empty quote list or
maturities that are not strictly increasing (this in particular rejects
duplicate dates) with `InvalidInputError`; otherwise converts each maturity
date into a year fraction via the day-count rule `yf`. -/
def buildStore (yf : Date → Date → ℚ) (evalDate : Date)
    (quotes : List (Date × ℚ)) : Except CurveError (List (ℚ × ℚ)) :=
  if quotes.isEmpty then .error .InvalidInputError
  else if ¬ List.Chain' (fun p q => dateLt p.1 q.1) quotes then
    .error .InvalidInputError
  else .ok (quotes.map (fun q => (yf evalDate q.1, q.2)))

/-! ## The reference scenario (spec §8) -/

/-- The reference curve points: knots at t = 1/2, 1, 2, 5, 10, 30 with the
six compiled-in rates. -/
def referencePoints : List (ℚ × ℚ) :=
  [(1/2, 3/100), (1, 7/200), (2, 3/80), (5, 1/25), (10, 17/400), (30, 9/200)]

/-- The reference test maturities with their year-fraction times:
3 months, 7 years, 40 years. -/
def referenceTestTimes : List (Period × ℚ) :=
  [(⟨3, .Months⟩, 1/4), (⟨7, .Years⟩, 7), (⟨40, .Years⟩, 40)]

/-! ## Output and exit-code pipeline (source `runAnalysis`, `main`) -/

/-- One line of standard output. -/
inductive OutLine where
  | evalDateLine (d : Date)
  | separatorLine
  | tableHeader
  | row (p : Period) (linRate cubRate : ℚ)
deriving DecidableEq

/-- The query loop of `performAnalysis` (source lines 135-146): each
iteration queries both curves and, on success, prints one table row;
a query failure stops the loop at once with that error. -/
def analysisLoop (linC cubC : InterpolatedCurve) :
    List (Period × ℚ) → List OutLine × Option CurveError
  | [] => ([], none)
  | (p, t) :: rest =>
    match zeroRate linC t, zeroRate cubC t with
    | .ok lr, .ok cr =>
      let res := analysisLoop linC cubC rest
      (OutLine.row p lr cr :: res.1, res.2)
    | .error e, _ => ([], some e)
    | _, .error e => ([], some e)

/-- `performAnalysis`: table header and separator, then the query loop, then
the closing separator (only reached when no query failed). -/
def performAnalysis (linC cubC : InterpolatedCurve)
    (tts : List (Period × ℚ)) : List OutLine × Option CurveError :=
  let res := analysisLoop linC cubC tts
  (OutLine.tableHeader :: OutLine.separatorLine ::
    (res.1 ++ (if res.2 = none then [OutLine.separatorLine] else [])), res.2)

/-- `runAnalysis` (source lines 67-87): prints the evaluation date and a
separator, builds the linear and cubic curves, enables extrapolation on
both, and runs `performAnalysis`; a curve-construction failure aborts with
that error after only the two preamble lines. -/
def runAnalysis (d : Date) (pts : List (ℚ × ℚ)) (tts : List (Period × ℚ)) :
    List OutLine × Option CurveError :=
  match buildCurve pts .Linear false, buildCurve pts .Cubic false with
  | .ok linC, .ok cubC =>
    let res := performAnalysis (enableExtrapolation linC)
      (enableExtrapolation cubC) tts
    ([OutLine.evalDateLine d, OutLine.separatorLine] ++ res.1, res.2)
  | .error e, _ => ([OutLine.evalDateLine d, OutLine.separatorLine], some e)
  | .ok _, .error e => ([OutLine.evalDateLine d, OutLine.separatorLine], some e)

/-- The single diagnostic line printed to standard error for a failure. -/
def errorMessage : CurveError → String
  | .InvalidInputError => "An error occurred: invalid input"
  | .ExtrapolationError => "An error occurred: extrapolation disabled"
  | .UnknownError => "An unknown error occurred."

/-- Observable result of one process run. -/
structure RunResult where
  exitCode : ℕ
  out : List OutLine
  err : List String
deriving DecidableEq

/-- `main` (source lines 159-187): the top-level try/catch — exit code 0 on
success, otherwise one diagnostic line on standard error and exit code 1. -/
def mainRun (d : Date) (pts : List (ℚ × ℚ)) (tts : List (Period × ℚ)) :
    RunResult :=
  match runAnalysis d pts tts with
  | (ls, none) => ⟨0, ls, []⟩
  | (ls, some e) => ⟨1, ls, [errorMessage e]⟩

/-- The fixed evaluation date of `main`: 24 August 2025. -/
def evalDate2025 : Date := ⟨2025, 8, 24⟩

/-- The default process run on the reference data. -/
def defaultRun : RunResult :=
  mainRun evalDate2025 referencePoints referenceTestTimes

/-! ## Ordering helpers -/

theorem chain'_head_lt_of_mem {x y : ℚ × ℚ} {l : List (ℚ × ℚ)}
    (hc : List.Chain' ptLt (x :: l)) (hy : y ∈ l) : x.1 < y.1 :=
  (List.pairwise_cons.mp (List.chain'_iff_pairwise.mp hc)).1 y hy

theorem chain'_get_lt (pts : List (ℚ × ℚ)) (hc : List.Chain' ptLt pts)
    (i j : ℕ) (hi : i < pts.length) (hj : j < pts.length) (hij : i < j) :
    (pts.get ⟨i, hi⟩).1 < (pts.get ⟨j, hj⟩).1 :=
  List.pairwise_iff_get.mp (List.chain'_iff_pairwise.mp hc) ⟨i, hi⟩ ⟨j, hj⟩ hij

theorem chain'_get_le (pts : List (ℚ × ℚ)) (hc : List.Chain' ptLt pts)
    (i j : ℕ) (hi : i < pts.length) (hj : j < pts.length) (hij : i ≤ j) :
    (pts.get ⟨i, hi⟩).1 ≤ (pts.get ⟨j, hj⟩).1 := by
  rcases Nat.eq_or_lt_of_le hij with h | h
  · subst h; exact le_refl _
  · exact le_of_lt (chain'_get_lt pts hc i j hi hj h)

theorem firstT_le_of_mem {pts : List (ℚ × ℚ)} {t r : ℚ}
    (hc : List.Chain' ptLt pts) (hm : (t, r) ∈ pts) : firstT pts ≤ t := by
  cases pts with
  | nil => simp at hm
  | cons x l =>
    rcases List.mem_cons.mp hm with h | h
    · simp [firstT, ← h]
    · exact le_of_lt (by simpa [firstT] using chain'_head_lt_of_mem hc h)

theorem lastT_cons_cons (x y : ℚ × ℚ) (l : List (ℚ × ℚ)) :
    lastT (x :: y :: l) = lastT (y :: l) := by
  simp [lastT, List.getLastD_cons]

theorem head_fst_le_lastT (y : ℚ × ℚ) (l : List (ℚ × ℚ))
    (hc : List.Chain' ptLt (y :: l)) : y.1 ≤ lastT (y :: l) := by
  induction l generalizing y with
  | nil => simp [lastT]
  | cons z l2 ih =>
    rw [lastT_cons_cons]
    have h1 : y.1 < z.1 := (List.chain'_cons.mp hc).1
    exact le_of_lt (lt_of_lt_of_le h1 (ih z (List.chain'_cons.mp hc).2))

theorem le_lastT_of_mem {pts : List (ℚ × ℚ)} {t r : ℚ}
    (hc : List.Chain' ptLt pts) (hm : (t, r) ∈ pts) : t ≤ lastT pts := by
  induction pts generalizing t r with
  | nil => simp at hm
  | cons x l ih =>
    cases l with
    | nil =>
      rcases List.mem_singleton.mp hm with h
      simp [lastT, ← h]
    | cons y l2 =>
      rw [lastT_cons_cons]
      rcases List.mem_cons.mp hm with h | h
      · have h1 : x.1 < y.1 :=
          chain'_head_lt_of_mem hc (List.mem_cons_self y l2)
        have h2 : y.1 ≤ lastT (y :: l2) :=
          head_fst_le_lastT y l2 (List.chain'_cons.mp hc).2
        have ht : t = x.1 := by rw [← h]
        rw [ht]; exact le_of_lt (lt_of_lt_of_le h1 h2)
      · exact ih (List.chain'_cons.mp hc).2 h

/-! ## Knot exactness of the interpolation routines -/

theorem segLin_left (t1 r1 t2 r2 : ℚ) : segLin t1 r1 t2 r2 t1 = r1 := by
  simp [segLin]

theorem segLin_right {t1 t2 : ℚ} (r1 r2 : ℚ) (h : t1 < t2) :
    segLin t1 r1 t2 r2 t2 = r2 := by
  have hne : t2 - t1 ≠ 0 := sub_ne_zero.mpr (ne_of_gt h)
  field_simp [segLin]

theorem linearInterp_knot (pts : List (ℚ × ℚ)) (t r : ℚ)
    (hc : List.Chain' ptLt pts) (hm : (t, r) ∈ pts) :
    linearInterp pts t = r := by
  induction pts with
  | nil => simp at hm
  | cons x l ih =>
    obtain ⟨t1, r1⟩ := x
    cases l with
    | nil =>
      rcases List.mem_singleton.mp hm with h
      have ht : t1 = t := congrArg Prod.fst h.symm
      have hr : r1 = r := congrArg Prod.snd h.symm
      simp [linearInterp, hr]
    | cons y l2 =>
      obtain ⟨t2, r2⟩ := y
      have h12 : t1 < t2 := (List.chain'_cons.mp hc).1
      have hc2 : List.Chain' ptLt ((t2, r2) :: l2) := (List.chain'_cons.mp hc).2
      rcases List.mem_cons.mp hm with h | hm2
      · -- the head knot
        have ht : t = t1 := congrArg Prod.fst h
        have hr : r = r1 := congrArg Prod.snd h
        subst ht; subst hr
        cases l2 with
        | nil => simpa [linearInterp] using segLin_left t r t2 r2
        | cons p ps =>
          have hle : t ≤ t2 := le_of_lt h12
          simpa [linearInterp, hle] using segLin_left t r t2 r2
      · rcases List.mem_cons.mp hm2 with h | hm3
        · -- the second knot
          have ht : t = t2 := congrArg Prod.fst h
          have hr : r = r2 := congrArg Prod.snd h
          subst ht; subst hr
          cases l2 with
          | nil => simpa [linearInterp] using segLin_right r1 r h12
          | cons p ps =>
            simpa [linearInterp] using segLin_right r1 r h12
        · -- deeper in the tail: the walk skips the first segment
          have hlt : t2 < t := chain'_head_lt_of_mem hc2 hm3
          cases l2 with
          | nil => simp at hm3
          | cons p ps =>
            have hnle : ¬ t ≤ t2 := not_le.mpr hlt
            simpa [linearInterp, hnle] using ih hc2 hm2

theorem segCubic_left {t1 t2 : ℚ} (r1 r2 M1 M2 : ℚ) (h : t1 < t2) :
    segCubic t1 r1 t2 r2 M1 M2 t1 = r1 := by
  have hne : t2 - t1 ≠ 0 := sub_ne_zero.mpr (ne_of_gt h)
  field_simp [segCubic]
  ring

theorem segCubic_right {t1 t2 : ℚ} (r1 r2 M1 M2 : ℚ) (h : t1 < t2) :
    segCubic t1 r1 t2 r2 M1 M2 t2 = r2 := by
  have hne : t2 - t1 ≠ 0 := sub_ne_zero.mpr (ne_of_gt h)
  field_simp [segCubic]
  ring

theorem cubicEval_knot (pts : List (ℚ × ℚ)) (Ms : List ℚ) (t r : ℚ)
    (hc : List.Chain' ptLt pts) (hm : (t, r) ∈ pts)
    (hl : Ms.length = pts.length) : cubicEval pts Ms t = r := by
  induction pts generalizing Ms with
  | nil => simp at hm
  | cons x l ih =>
    obtain ⟨t1, r1⟩ := x
    cases l with
    | nil =>
      rcases List.mem_singleton.mp hm with h
      have hr : r1 = r := congrArg Prod.snd h.symm
      cases Ms with
      | nil => simp at hl
      | cons M1 Ms1 => simp [cubicEval, hr]
    | cons y l2 =>
      obtain ⟨t2, r2⟩ := y
      have h12 : t1 < t2 := (List.chain'_cons.mp hc).1
      have hc2 : List.Chain' ptLt ((t2, r2) :: l2) := (List.chain'_cons.mp hc).2
      cases Ms with
      | nil => simp at hl
      | cons M1 Ms1 =>
        cases Ms1 with
        | nil => simp at hl
        | cons M2 Ms2 =>
          have hl2 : (M2 :: Ms2).length = ((t2, r2) :: l2).length := by
            simp at hl ⊢; omega
          rcases List.mem_cons.mp hm with h | hm2
          · have ht : t = t1 := congrArg Prod.fst h
            have hr : r = r1 := congrArg Prod.snd h
            subst ht; subst hr
            cases l2 with
            | nil => simpa [cubicEval] using segCubic_left r r2 M1 M2 h12
            | cons p ps =>
              have hle : t ≤ t2 := le_of_lt h12
              simpa [cubicEval, hle] using segCubic_left r r2 M1 M2 h12
          · rcases List.mem_cons.mp hm2 with h | hm3
            · have ht : t = t2 := congrArg Prod.fst h
              have hr : r = r2 := congrArg Prod.snd h
              subst ht; subst hr
              cases l2 with
              | nil => simpa [cubicEval] using segCubic_right r1 r M1 M2 h12
              | cons p ps =>
                simpa [cubicEval] using segCubic_right r1 r M1 M2 h12
            · have hlt : t2 < t := chain'_head_lt_of_mem hc2 hm3
              cases l2 with
              | nil => simp at hm3
              | cons p ps =>
                have hnle : ¬ t ≤ t2 := not_le.mpr hlt
                simpa [cubicEval, hnle] using ih (M2 :: Ms2) hc2 hm2 hl2

/-! ## Length of the spline second-derivative vector -/

theorem interiorEqs_length :
    ∀ pts : List (ℚ × ℚ), (interiorEqs pts).length = pts.length - 2
  | [] => by simp [interiorEqs]
  | [_] => by simp [interiorEqs]
  | [_, _] => by simp [interiorEqs]
  | x :: y :: z :: ps => by
    have := interiorEqs_length (y :: z :: ps)
    simp [interiorEqs] at this ⊢
    omega

theorem thomasFwd_length :
    ∀ (cp dp : ℚ) (l : List (ℚ × ℚ × ℚ × ℚ)),
      (thomasFwd cp dp l).length = l.length
  | _, _, [] => by simp [thomasFwd]
  | cp, dp, (a, b, c, d) :: rest => by
    simp [thomasFwd]
    exact thomasFwd_length _ _ rest

theorem thomasBack_length :
    ∀ l : List (ℚ × ℚ), (thomasBack l).length = l.length
  | [] => by simp [thomasBack]
  | (cp, dp) :: rest => by
    have ih := thomasBack_length rest
    unfold thomasBack
    cases hr : thomasBack rest with
    | nil => rw [hr] at ih; simp [← ih]
    | cons x xs => rw [hr] at ih; simp at ih ⊢; omega

theorem splineM_length (pts : List (ℚ × ℚ)) (h : 2 ≤ pts.length) :
    (splineM pts).length = pts.length := by
  simp [splineM, thomasBack_length, thomasFwd_length, interiorEqs_length]
  omega

/-! ## C1 -/

/-- C1: for every strictly increasing point sequence accepted by the curve
builder, under both the Linear and the Cubic methods, querying the zero rate
exactly at a knot time `t` returns that knot's rate `r` exactly. -/
theorem zeroRate_at_knot_exact (pts : List (ℚ × ℚ)) (m : Method) (ext : Bool)
    (c : InterpolatedCurve) (hb : buildCurve pts m ext = .ok c)
    (t r : ℚ) (hm : (t, r) ∈ pts) : zeroRate c t = .ok r := by
  unfold buildCurve at hb
  by_cases h1 : pts.length < minPoints m
  · simp [h1] at hb
  · by_cases h2 : strictlyIncreasing pts
    · simp [h1, h2] at hb
      have hc : List.Chain' ptLt pts := h2
      have hfst : firstT pts ≤ t := firstT_le_of_mem hc hm
      have hlst : t ≤ lastT pts := le_lastT_of_mem hc hm
      rw [← hb]
      unfold zeroRate
      rw [if_pos (Or.inr ⟨hfst, hlst⟩)]
      unfold interp
      cases m with
      | Linear => rw [linearInterp_knot pts t r hc hm]
      | Cubic =>
        have hlen : 2 ≤ pts.length := by
          simp [minPoints] at h1; omega
        rw [cubicEval_knot pts (splineM pts) t r hc hm (splineM_length pts hlen)]
    · simp [h1, h2] at hb

/-- Witness for C1 at a concrete three-point cubic curve. -/
theorem zeroRate_at_knot_exact_witness :
    zeroRate ⟨[((1 : ℚ), (2 : ℚ)), (2, 3), (4, 9)], .Cubic, true⟩ 2 = .ok 3 :=
  zeroRate_at_knot_exact [((1 : ℚ), (2 : ℚ)), (2, 3), (4, 9)] .Cubic true _
    (by norm_num [buildCurve, minPoints, strictlyIncreasing, List.chain'_cons,
      ptLt])
    2 3 (by decide)

/-! ## C2 -/

theorem chain'_get?_le (pts : List (ℚ × ℚ)) (hc : List.Chain' ptLt pts)
    {i j : ℕ} {a b : ℚ × ℚ} (ha : pts.get? i = some a)
    (hb : pts.get? j = some b) (hij : i ≤ j) : a.1 ≤ b.1 := by
  rcases List.get?_eq_some.mp ha with ⟨hi, hga⟩
  rcases List.get?_eq_some.mp hb with ⟨hj, hgb⟩
  rw [← hga, ← hgb]
  exact chain'_get_le pts hc i j hi hj hij

theorem linearInterp_bracket (pts : List (ℚ × ℚ)) :
    ∀ (i : ℕ) (t t1 r1 t2 r2 : ℚ), List.Chain' ptLt pts →
      pts.get? i = some (t1, r1) → pts.get? (i + 1) = some (t2, r2) →
      t1 < t → t ≤ t2 → linearInterp pts t = segLin t1 r1 t2 r2 t := by
  induction pts with
  | nil => intro i t t1 r1 t2 r2 _ h; simp at h
  | cons x l ih =>
    intro i t t1 r1 t2 r2 hc hg1 hg2 hlt hle
    cases l with
    | nil =>
      cases i with
      | zero => simp at hg2
      | succ j => simp at hg1
    | cons y l2 =>
      have hc2 : List.Chain' ptLt (y :: l2) := (List.chain'_cons.mp hc).2
      cases i with
      | zero =>
        simp at hg1 hg2
        subst hg1; subst hg2
        cases l2 with
        | nil => simp [linearInterp]
        | cons p ps =>
          obtain ⟨tp, rp⟩ := p
          simp [linearInterp, hle]
      | succ j =>
        simp only [List.get?_cons_succ] at hg1 hg2
        have hy0 : (y :: l2).get? 0 = some y := rfl
        have hyle : y.1 ≤ t1 := chain'_get?_le _ hc2 hy0 hg1 (Nat.zero_le j)
        have hnle : ¬ t ≤ y.1 := not_le.mpr (lt_of_le_of_lt hyle hlt)
        cases l2 with
        | nil =>
          cases j with
          | zero => simp at hg2
          | succ k => simp at hg1
        | cons p ps =>
          obtain ⟨tx, rx⟩ := x
          obtain ⟨ty, ry⟩ := y
          obtain ⟨tp, rp⟩ := p
          simp only [linearInterp, if_neg hnle]
          exact ih j t t1 r1 t2 r2 hc2 hg1 hg2 hlt hle

/-- C2: for a curve accepted by the builder with the Linear method, on any
bracket of adjacent knots with increasing rates, the zero rate queried at
any `t` strictly inside the bracket is the linear blend and lies strictly
between the two knot rates. -/
theorem linear_strict_betweenness (pts : List (ℚ × ℚ)) (ext : Bool)
    (c : InterpolatedCurve) (hb : buildCurve pts .Linear ext = .ok c)
    (i : ℕ) (t t1 r1 t2 r2 : ℚ)
    (hg1 : pts.get? i = some (t1, r1)) (hg2 : pts.get? (i + 1) = some (t2, r2))
    (hr : r1 < r2) (h1 : t1 < t) (h2 : t < t2) :
    zeroRate c t = .ok (segLin t1 r1 t2 r2 t) ∧
    r1 < segLin t1 r1 t2 r2 t ∧ segLin t1 r1 t2 r2 t < r2 := by
  unfold buildCurve at hb
  by_cases hl1 : pts.length < minPoints .Linear
  · simp [hl1] at hb
  by_cases hl2 : strictlyIncreasing pts
  swap
  · simp [hl1, hl2] at hb
  simp [hl1, hl2] at hb
  have hc : List.Chain' ptLt pts := hl2
  -- the query is in range
  have hfst : firstT pts ≤ t := by
    cases pts with
    | nil => simp at hg1
    | cons x l =>
      have hx0 : (x :: l).get? 0 = some x := rfl
      have : x.1 ≤ t1 := chain'_get?_le _ hc hx0 hg1 (Nat.zero_le i)
      have : x.1 ≤ t := le_of_lt (lt_of_le_of_lt this h1)
      simpa [firstT] using this
  have hlst : t ≤ lastT pts := by
    have hmem : (t2, r2) ∈ pts := List.get?_mem hg2
    exact le_of_lt (lt_of_lt_of_le h2 (le_lastT_of_mem hc hmem))
  rw [← hb]
  unfold zeroRate
  rw [if_pos (Or.inr ⟨hfst, hlst⟩)]
  unfold interp
  rw [linearInterp_bracket pts i t t1 r1 t2 r2 hc hg1 hg2 h1 (le_of_lt h2)]
  refine ⟨rfl, ?_, ?_⟩
  · have hden : (0 : ℚ) < t2 - t1 := by linarith
    have hs0 : 0 < (t - t1) / (t2 - t1) := div_pos (by linarith) hden
    have hpos : 0 < (r2 - r1) * ((t - t1) / (t2 - t1)) :=
      mul_pos (by linarith) hs0
    unfold segLin
    rw [mul_div_assoc]
    linarith
  · have hden : (0 : ℚ) < t2 - t1 := by linarith
    have hs1 : (t - t1) / (t2 - t1) < 1 := (div_lt_one hden).mpr (by linarith)
    have hlt1 : (r2 - r1) * ((t - t1) / (t2 - t1)) < (r2 - r1) * 1 :=
      mul_lt_mul_of_pos_left hs1 (by linarith)
    unfold segLin
    rw [mul_div_assoc]
    linarith

/-- Witness for C2 on the two-point curve through (0, 1) and (1, 3) at
t = 1/2. -/
theorem linear_strict_betweenness_witness :
    zeroRate ⟨[((0 : ℚ), (1 : ℚ)), (1, 3)], .Linear, true⟩ (1/2) =
      .ok (segLin 0 1 1 3 (1/2)) ∧
    (1 : ℚ) < segLin 0 1 1 3 (1/2) ∧ segLin 0 1 1 3 (1/2) < 3 :=
  linear_strict_betweenness [((0 : ℚ), (1 : ℚ)), (1, 3)] true _
    (by norm_num [buildCurve, minPoints, strictlyIncreasing, List.chain'_cons,
      ptLt])
    0 (1/2) 0 1 1 3 rfl rfl (by norm_num) (by norm_num) (by norm_num)

/-! ## C3 -/

theorem dateLt_trans {a b c : Date} (h1 : dateLt a b) (h2 : dateLt b c) :
    dateLt a c := by
  unfold dateLt at *
  omega

theorem dateLt_ne {a b : Date} (h : dateLt a b) : a ≠ b := by
  intro he
  subst he
  unfold dateLt at h
  omega

theorem nodup_dates_of_chain' {quotes : List (Date × ℚ)}
    (hc : List.Chain' (fun p q => dateLt p.1 q.1) quotes) :
    (quotes.map Prod.fst).Nodup := by
  have : IsTrans (Date × ℚ) (fun p q => dateLt p.1 q.1) :=
    ⟨fun _ _ _ h1 h2 => dateLt_trans h1 h2⟩
  have hp : List.Pairwise (fun p q => dateLt p.1 q.1) quotes :=
    List.chain'_iff_pairwise.mp hc
  have hp2 : List.Pairwise dateLt (quotes.map Prod.fst) :=
    List.pairwise_map.mpr hp
  exact hp2.imp dateLt_ne

/-- C3: the store builder rejects an empty quote list, duplicate maturity
dates, and non-strictly-increasing maturity dates with `InvalidInputError`,
and the curve builder rejects point sequences that are too short for the
method (fewer than 2 for Linear, fewer than 3 for Cubic) or whose t-values
are not strictly increasing, also with `InvalidInputError`. -/
theorem build_rejects_invalid_input (yf : Date → Date → ℚ) (evalDate : Date)
    (quotes : List (Date × ℚ)) (pts : List (ℚ × ℚ)) (m : Method)
    (ext : Bool) :
    (quotes = [] ∨ ¬ (quotes.map Prod.fst).Nodup ∨
        ¬ List.Chain' (fun p q => dateLt p.1 q.1) quotes →
      buildStore yf evalDate quotes = .error .InvalidInputError) ∧
    (pts.length < minPoints m ∨ ¬ strictlyIncreasing pts →
      buildCurve pts m ext = .error .InvalidInputError) := by
  constructor
  · intro h
    unfold buildStore
    rcases h with h | h | h
    · subst h; simp
    · have hnc : ¬ List.Chain' (fun p q => dateLt p.1 q.1) quotes :=
        fun hc => h (nodup_dates_of_chain' hc)
      by_cases he : quotes.isEmpty
      · simp [he]
      · simp [he, hnc]
    · by_cases he : quotes.isEmpty
      · simp [he]
      · simp [he, h]
  · intro h
    unfold buildCurve
    rcases h with h | h
    · simp [h]
    · by_cases hl : pts.length < minPoints m
      · simp [hl]
      · simp [hl, h]

/-- Witness for C3: duplicate maturity dates, and a one-point Linear
curve. -/
theorem build_rejects_invalid_input_witness :
    buildStore (fun _ _ => 0) ⟨2025, 8, 24⟩
        [(⟨2026, 1, 1⟩, (0 : ℚ)), (⟨2026, 1, 1⟩, 0)] =
      .error .InvalidInputError ∧
    buildCurve [((1 : ℚ), (3 : ℚ))] .Linear true = .error .InvalidInputError :=
  ⟨(build_rejects_invalid_input (fun _ _ => 0) ⟨2025, 8, 24⟩
      [(⟨2026, 1, 1⟩, (0 : ℚ)), (⟨2026, 1, 1⟩, 0)] [] .Linear true).1
      (Or.inr (Or.inl (by simp))),
   (build_rejects_invalid_input (fun _ _ => 0) ⟨2025, 8, 24⟩ []
      [((1 : ℚ), (3 : ℚ))] .Linear true).2
      (Or.inl (by simp [minPoints]))⟩

/-! ## C4 -/

/-- C4: for a query time outside the knot range, `zeroRate` fails with
`ExtrapolationError` exactly when extrapolation is disabled; and on the
default run both curves have extrapolation enabled, so every one of the
three compiled-in test maturities (including t = 40 beyond the last knot)
succeeds on both curves. -/
theorem extrapolation_error_iff_disabled (pts : List (ℚ × ℚ)) (m : Method)
    (ext : Bool) (t : ℚ) (hout : t < firstT pts ∨ lastT pts < t) :
    (zeroRate ⟨pts, m, ext⟩ t = .error .ExtrapolationError ↔ ext = false) ∧
    (∀ p t2, (p, t2) ∈ referenceTestTimes → ∀ m2 : Method,
      ∃ r, zeroRate ⟨referencePoints, m2, true⟩ t2 = .ok r) := by
  constructor
  · cases ext with
    | true => simp [zeroRate]
    | false =>
      have hn : ¬ (firstT pts ≤ t ∧ t ≤ lastT pts) := by
        rintro ⟨ha, hb⟩
        rcases hout with ho | ho <;> linarith
      simp [zeroRate, hn]
  · intro p t2 _ m2
    exact ⟨interp m2 referencePoints t2, by simp [zeroRate]⟩

/-- Witness for C4: t = 40 lies beyond the last reference knot at t = 30,
and with extrapolation disabled the query fails. -/
theorem extrapolation_error_iff_disabled_witness :
    zeroRate ⟨referencePoints, .Linear, false⟩ 40 =
      .error .ExtrapolationError :=
  (extrapolation_error_iff_disabled referencePoints .Linear false 40
    (Or.inr (by norm_num [lastT, referencePoints, List.getLastD]))).1.mpr rfl

/-! ## C5 -/

/-- C5: the zero-rate query is a pure function of (points, method, t): any
two curve values agreeing on points and method return the identical result
at every in-range t, independent of anything else (in particular of the
extrapolation flag), and no query mutates the curve. -/
theorem zeroRate_pure_function (c1 c2 : InterpolatedCurve) (t : ℚ)
    (hp : c1.points = c2.points) (hm : c1.method = c2.method)
    (h1 : firstT c1.points ≤ t) (h2 : t ≤ lastT c1.points) :
    zeroRate c1 t = zeroRate c2 t := by
  unfold zeroRate
  rw [if_pos (Or.inr ⟨h1, h2⟩), if_pos (Or.inr ⟨hp ▸ h1, hp ▸ h2⟩), hp, hm]

/-- Witness for C5 at the reference curve with opposite extrapolation
flags. -/
theorem zeroRate_pure_function_witness :
    zeroRate ⟨referencePoints, .Linear, true⟩ 7 =
      zeroRate ⟨referencePoints, .Linear, false⟩ 7 :=
  zeroRate_pure_function ⟨referencePoints, .Linear, true⟩
    ⟨referencePoints, .Linear, false⟩ 7 rfl rfl
    (by norm_num [firstT, referencePoints])
    (by norm_num [lastT, referencePoints, List.getLastD])

/-! ## C6 -/

/-- C6: in the reference scenario the 7-year zero rate is exactly 41/1000
on the Linear curve — strictly between 0.0400 and 0.0425 — and the natural
cubic spline value is exactly 13655563/329500000, which lies within
[0.0390, 0.0440]. -/
theorem reference_seven_year_bounds :
    zeroRate ⟨referencePoints, .Linear, true⟩ 7 = .ok (41/1000) ∧
    ((1 : ℚ)/25 < 41/1000 ∧ (41 : ℚ)/1000 < 17/400) ∧
    zeroRate ⟨referencePoints, .Cubic, true⟩ 7 = .ok (13655563/329500000) ∧
    ((39 : ℚ)/1000 ≤ 13655563/329500000 ∧
      (13655563 : ℚ)/329500000 ≤ 44/1000) := by
  refine ⟨?_, ⟨by norm_num, by norm_num⟩, ?_, ⟨by norm_num, by norm_num⟩⟩
  · norm_num [zeroRate, interp, referencePoints, linearInterp, segLin]
  · norm_num [zeroRate, interp, referencePoints, cubicEval, segCubic, splineM,
      interiorEqs, thomasFwd, thomasBack]

/-! ## C7 -/

theorem analysisLoop_total (linC cubC : InterpolatedCurve)
    (hl : linC.extrapolate = true) (hcb : cubC.extrapolate = true) :
    ∀ tts : List (Period × ℚ),
      (analysisLoop linC cubC tts).2 = none ∧
      (analysisLoop linC cubC tts).1.length = tts.length ∧
      ∀ l ∈ (analysisLoop linC cubC tts).1,
        ∃ p lr cr, l = OutLine.row p lr cr
  | [] => by simp [analysisLoop]
  | (p, t) :: rest => by
    have ih := analysisLoop_total linC cubC hl hcb rest
    have hz1 : zeroRate linC t = .ok (interp linC.method linC.points t) := by
      simp [zeroRate, hl]
    have hz2 : zeroRate cubC t = .ok (interp cubC.method cubC.points t) := by
      simp [zeroRate, hcb]
    refine ⟨?_, ?_, ?_⟩
    · simp [analysisLoop, hz1, hz2, ih.1]
    · simp [analysisLoop, hz1, hz2, ih.2.1]
    · intro l hml
      simp only [analysisLoop, hz1, hz2, List.mem_cons] at hml
      rcases hml with h | h
      · exact ⟨p, _, _, h⟩
      · exact ih.2.2 l h

/-- C7: the output is all-or-nothing — for every input, either the complete
comparison table is printed (header, one row per test maturity, closing
separator) after the two preamble lines, or no table line at all is printed
because curve construction failed before any table output. -/
theorem output_all_or_nothing (d : Date) (pts : List (ℚ × ℚ))
    (tts : List (Period × ℚ)) :
    (∃ rows : List OutLine, rows.length = tts.length ∧
      (∀ l ∈ rows, ∃ p lr cr, l = OutLine.row p lr cr) ∧
      (runAnalysis d pts tts).1 =
        [OutLine.evalDateLine d, OutLine.separatorLine, OutLine.tableHeader,
          OutLine.separatorLine] ++ rows ++ [OutLine.separatorLine] ∧
      (runAnalysis d pts tts).2 = none) ∨
    ((runAnalysis d pts tts).1 =
        [OutLine.evalDateLine d, OutLine.separatorLine] ∧
      (runAnalysis d pts tts).2 ≠ none) := by
  rcases hb1 : buildCurve pts .Linear false with e1 | linC
  · right
    constructor <;> simp [runAnalysis, hb1]
  rcases hb2 : buildCurve pts .Cubic false with e2 | cubC
  · right
    constructor <;> simp [runAnalysis, hb1, hb2]
  left
  have ht := analysisLoop_total (enableExtrapolation linC)
    (enableExtrapolation cubC) rfl rfl tts
  refine ⟨(analysisLoop (enableExtrapolation linC)
    (enableExtrapolation cubC) tts).1, ht.2.1, ht.2.2, ?_, ?_⟩
  · simp [runAnalysis, hb1, hb2, performAnalysis, ht.1]
  · simp [runAnalysis, hb1, hb2, performAnalysis, ht.1]

/-! ## C8 -/

/-- C8: every run of the program either exits with code 0 and an empty
standard error, or exits with code 1 with exactly one diagnostic line on
standard error; the top-level handler admits no other outcome. -/
theorem main_exit_codes (d : Date) (pts : List (ℚ × ℚ))
    (tts : List (Period × ℚ)) :
    ((mainRun d pts tts).exitCode = 0 ∧ (mainRun d pts tts).err = []) ∨
    ((mainRun d pts tts).exitCode = 1 ∧
      (mainRun d pts tts).err.length = 1) := by
  rcases h : runAnalysis d pts tts with ⟨ls, e⟩
  cases e with
  | none => left; constructor <;> simp [mainRun, h]
  | some e2 => right; constructor <;> simp [mainRun, h]

/-! ## C9 -/

/-- C9: the market data used to build the curves are exactly the six
compiled-in quotes (6M at 3.00 percent through 30Y at 4.50 percent), the
maturity dates are exactly the six tenors advanced from the evaluation
date, and the queried maturities are exactly the three compiled-in periods
(3 months, 7 years, 40 years); none of this depends on run-time input. -/
theorem compiled_in_market_data (d : Date) :
    (setupMarketData d).map Prod.snd =
      [3/100, 7/200, 3/80, 1/25, 17/400, 9/200] ∧
    (setupMarketData d).map Prod.fst =
      [advance d ⟨6, .Months⟩, advance d ⟨1, .Years⟩, advance d ⟨2, .Years⟩,
        advance d ⟨5, .Years⟩, advance d ⟨10, .Years⟩,
        advance d ⟨30, .Years⟩] ∧
    testPeriods = [⟨3, .Months⟩, ⟨7, .Years⟩, ⟨40, .Years⟩] :=
  ⟨rfl, rfl, rfl⟩

/-! ## C10 -/

theorem addMonths_strict_mono (dt : Date) {n1 n2 : ℕ} (h : n1 < n2) :
    dateLt (addMonths dt n1) (addMonths dt n2) := by
  simp only [addMonths, dateLt, totalMonths]
  omega

/-- C10: for every evaluation date the dates and rates vectors both have
exactly six entries and the six advanced maturity dates (6M, 1Y, 2Y, 5Y,
10Y, 30Y) are strictly increasing in calendar order, so the program's own
market data satisfies the curve constructors' strict-monotonicity
precondition. -/
theorem market_dates_strictly_increasing (d : Date) :
    (marketDates d).length = 6 ∧ marketRates.length = 6 ∧
    List.Chain' dateLt (marketDates d) := by
  refine ⟨rfl, rfl, ?_⟩
  simp only [marketDates, marketTenors, advance, Period.months, List.map_cons,
    List.map_nil, List.chain'_cons, List.chain'_singleton, and_true]
  refine ⟨?_, ?_, ?_, ?_, ?_⟩ <;> exact addMonths_strict_mono d (by norm_num)

end YieldCurve
